import Mathlib

/-!
Shallow embedding of the `DeletionProof` Solidity contract
(src/contracts/test/DeletionProof.test.js, contract section) from the
Verifiable-Deletion-Protocol repository.

Modelling conventions:
- `address` is `Nat`, the zero address is `0`; `bytes32` is `Nat`;
  `string` is `String` (Solidity's `bytes(s).length > 0` is `s ≠ ""`).
- `uint256` counters are `Nat`: Solidity 0.8 uses checked arithmetic, and
  `totalDeletions` tracks the length of `keyIds`, so no wrap is modelled.
- A `mapping` is an association list read through a default-returning
  lookup (Solidity mappings default every field to zero / empty / false);
  assignment prepends, and lookup takes the first hit.
- A reverting call is `Except.error reason` carrying the revert string; a
  reverted transaction leaves the pre-call state in place, which `applyOp`
  makes explicit.  `msg.sender` and `block.timestamp` are explicit
  arguments `sender` and `ts`.
- The view functions (`getDeletionRecord`, `isKeyDeleted`, `getAllKeyIds`,
  `getTotalDeletions`, `verifyDeletionProof`, `isAuthorized`) are pure
  functions of the state and are therefore not part of `Op`.
-/

namespace DeletionProof

/-- The `DeletionRecord` struct of the contract. -/
structure DeletionRecord where
  keyId : String
  destructionMethod : String
  timestamp : Nat
  operator : Nat
  proofHash : Nat
  existsFlag : Bool
deriving Repr, DecidableEq

/-- The default value a Solidity `mapping(string => DeletionRecord)`
returns for an unset key: every field zeroed, `exists` false. -/
def emptyRecord : DeletionRecord :=
  { keyId := "", destructionMethod := "", timestamp := 0, operator := 0,
    proofHash := 0, existsFlag := false }

/-- Lookup in the `deletionRecords` mapping, with the Solidity default. -/
def getRecord (m : List (String × DeletionRecord)) (k : String) : DeletionRecord :=
  match m.find? (fun p => p.1 == k) with
  | some p => p.2
  | none => emptyRecord

/-- Lookup in the `authorizedOperators` mapping, defaulting to `false`. -/
def getAuth (m : List (Nat × Bool)) (a : Nat) : Bool :=
  match m.find? (fun p => p.1 == a) with
  | some p => p.2
  | none => false

/-- The contract's storage: `deletionRecords`, `keyIds`, `owner`,
`authorizedOperators`, `totalDeletions`. -/
structure ContractState where
  deletionRecords : List (String × DeletionRecord)
  keyIds : List String
  owner : Nat
  authorizedOperators : List (Nat × Bool)
  totalDeletions : Nat
deriving Repr, DecidableEq

/-- The constructor: `owner = msg.sender; authorizedOperators[msg.sender] = true`. -/
def initialState (deployer : Nat) : ContractState :=
  { deletionRecords := [], keyIds := [], owner := deployer,
    authorizedOperators := [(deployer, true)], totalDeletions := 0 }

/-- The `isAuthorized` view function, which is also the exact condition of
the `onlyAuthorized` modifier: `_operator == owner || authorizedOperators[_operator]`. -/
def isAuthorized (s : ContractState) (a : Nat) : Bool :=
  a == s.owner || getAuth s.authorizedOperators a

/-- `recordDeletion(_keyId, _destructionMethod, _proofHash)`: modifier
`onlyAuthorized`, then modifier `keyMustNotExist`, then the two `require`s
on non-emptiness, then the record is stored, `_keyId` pushed onto
`keyIds`, and `totalDeletions` incremented. -/
def recordDeletion (sender ts : Nat) (keyId method : String) (proofHash : Nat)
    (s : ContractState) : Except String ContractState :=
  if ¬ (sender == s.owner || getAuth s.authorizedOperators sender) then
    .error "Not authorized"
  else if (getRecord s.deletionRecords keyId).existsFlag then
    .error "Key deletion record already exists"
  else if keyId = "" then
    .error "Key ID cannot be empty"
  else if method = "" then
    .error "Method cannot be empty"
  else
    .ok { s with
      deletionRecords :=
        (keyId,
          { keyId := keyId, destructionMethod := method, timestamp := ts,
            operator := sender, proofHash := proofHash, existsFlag := true })
          :: s.deletionRecords,
      keyIds := s.keyIds ++ [keyId],
      totalDeletions := s.totalDeletions + 1 }

/-- The loop body of `batchRecordDeletion`: for each `i`, if
`!deletionRecords[_keyIds[i]].exists` then call `recordDeletion`; an inner
revert aborts (and rolls back) the whole call. -/
def batchLoop (sender ts : Nat) :
    List (String × String × Nat) → ContractState → Except String ContractState
  | [], s => .ok s
  | (k, m, h) :: rest, s =>
    if (getRecord s.deletionRecords k).existsFlag then
      batchLoop sender ts rest s
    else
      match recordDeletion sender ts k m h s with
      | .ok s1 => batchLoop sender ts rest s1
      | .error e => .error e

/-- `batchRecordDeletion(_keyIds, _destructionMethods, _proofHashes)`:
modifier `onlyAuthorized`, the three structural `require`s in source
order, then the loop.  Because the lengths are equal past the first
`require`, the indexed loop is the loop over the zip. -/
def batchRecordDeletion (sender ts : Nat) (keyIds methods : List String)
    (proofHashes : List Nat) (s : ContractState) : Except String ContractState :=
  if ¬ (sender == s.owner || getAuth s.authorizedOperators sender) then
    .error "Not authorized"
  else if ¬ (keyIds.length = methods.length ∧ keyIds.length = proofHashes.length) then
    .error "Array lengths must match"
  else if keyIds.length = 0 then
    .error "Arrays cannot be empty"
  else if 100 < keyIds.length then
    .error "Batch size too large"
  else
    batchLoop sender ts (keyIds.zip (methods.zip proofHashes)) s

/-- `getDeletionRecord(_keyId)`: modifier `keyMustExist`, then the stored
tuple `(keyId, destructionMethod, timestamp, operator, proofHash)`. -/
def getDeletionRecord (s : ContractState) (keyId : String) :
    Except String (String × String × Nat × Nat × Nat) :=
  if ¬ (getRecord s.deletionRecords keyId).existsFlag then
    .error "Key deletion record does not exist"
  else
    let r := getRecord s.deletionRecords keyId
    .ok (r.keyId, r.destructionMethod, r.timestamp, r.operator, r.proofHash)

/-- `isKeyDeleted(_keyId)`: returns `deletionRecords[_keyId].exists`. -/
def isKeyDeleted (s : ContractState) (keyId : String) : Bool :=
  (getRecord s.deletionRecords keyId).existsFlag

/-- `getAllKeyIds()`: returns the `keyIds` list. -/
def getAllKeyIds (s : ContractState) : List String :=
  s.keyIds

/-- `getTotalDeletions()`: returns the counter. -/
def getTotalDeletions (s : ContractState) : Nat :=
  s.totalDeletions

/-- `verifyDeletionProof(_keyId, _expectedHash)`: modifier `keyMustExist`,
then `deletionRecords[_keyId].proofHash == _expectedHash`. -/
def verifyDeletionProof (s : ContractState) (keyId : String) (expectedHash : Nat) :
    Except String Bool :=
  if ¬ (getRecord s.deletionRecords keyId).existsFlag then
    .error "Key deletion record does not exist"
  else
    .ok ((getRecord s.deletionRecords keyId).proofHash == expectedHash)

/-- `authorizeOperator(_operator)`: `onlyOwner`, non-zero address, then
`authorizedOperators[_operator] = true`. -/
def authorizeOperator (sender op : Nat) (s : ContractState) :
    Except String ContractState :=
  if ¬ (sender == s.owner) then .error "Only owner can call this function"
  else if op = 0 then .error "Invalid operator address"
  else .ok { s with authorizedOperators := (op, true) :: s.authorizedOperators }

/-- `revokeOperator(_operator)`: `onlyOwner`, `require(_operator != owner)`,
then `authorizedOperators[_operator] = false`. -/
def revokeOperator (sender op : Nat) (s : ContractState) :
    Except String ContractState :=
  if ¬ (sender == s.owner) then .error "Only owner can call this function"
  else if op = s.owner then .error "Cannot revoke owner"
  else .ok { s with authorizedOperators := (op, false) :: s.authorizedOperators }

/-- `transferOwnership(_newOwner)`: `onlyOwner`, non-zero address, then
`owner = _newOwner; authorizedOperators[_newOwner] = true`. -/
def transferOwnership (sender newOwner : Nat) (s : ContractState) :
    Except String ContractState :=
  if ¬ (sender == s.owner) then .error "Only owner can call this function"
  else if newOwner = 0 then .error "Invalid new owner address"
  else .ok { s with owner := newOwner,
                    authorizedOperators := (newOwner, true) :: s.authorizedOperators }

/-- The state-mutating entry points of the contract, with `msg.sender` and
`block.timestamp` as data. -/
inductive Op where
  | record (sender ts : Nat) (keyId method : String) (proofHash : Nat)
  | batch (sender ts : Nat) (keyIds methods : List String) (proofHashes : List Nat)
  | authorize (sender op : Nat)
  | revoke (sender op : Nat)
  | transfer (sender newOwner : Nat)
deriving Repr, DecidableEq

/-- The post-state of a transaction: its result on success, the pre-state
on a revert (a revert rolls every write back). -/
def commit (s : ContractState) : Except String ContractState → ContractState
  | .ok s1 => s1
  | .error _ => s

/-- Run one transaction against the state. -/
def applyOp (o : Op) (s : ContractState) : ContractState :=
  match o with
  | .record sender ts k m h => commit s (recordDeletion sender ts k m h s)
  | .batch sender ts ks ms hs => commit s (batchRecordDeletion sender ts ks ms hs s)
  | .authorize sender op => commit s (authorizeOperator sender op s)
  | .revoke sender op => commit s (revokeOperator sender op s)
  | .transfer sender newOwner => commit s (transferOwnership sender newOwner s)

/-- States reachable from deployment by any sequence of transactions. -/
inductive Reachable : ContractState → Prop
  | init (deployer : Nat) : Reachable (initialState deployer)
  | step (o : Op) (s : ContractState) : Reachable s → Reachable (applyOp o s)

end DeletionProof

namespace DeletionProof

/-! ### Basic lookup lemmas -/

theorem getRecord_cons (k k' : String) (r : DeletionRecord)
    (m : List (String × DeletionRecord)) :
    getRecord ((k, r) :: m) k' = if k = k' then r else getRecord m k' := by
  by_cases h : k = k' <;> simp [getRecord, List.find?_cons, h]

theorem getAuth_cons (a a' : Nat) (b : Bool) (m : List (Nat × Bool)) :
    getAuth ((a, b) :: m) a' = if a = a' then b else getAuth m a' := by
  by_cases h : a = a' <;> simp [getAuth, List.find?_cons, h]

/-! ### Characterization of `recordDeletion` -/

/-- The state produced by a successful `recordDeletion`. -/
def afterRecord (sender ts : Nat) (keyId method : String) (proofHash : Nat)
    (s : ContractState) : ContractState :=
  { s with
    deletionRecords :=
      (keyId,
        { keyId := keyId, destructionMethod := method, timestamp := ts,
          operator := sender, proofHash := proofHash, existsFlag := true })
        :: s.deletionRecords,
    keyIds := s.keyIds ++ [keyId],
    totalDeletions := s.totalDeletions + 1 }

theorem recordDeletion_ok_iff (sender ts : Nat) (k m : String) (h : Nat)
    (s s' : ContractState) :
    recordDeletion sender ts k m h s = .ok s' ↔
      (isAuthorized s sender = true
        ∧ (getRecord s.deletionRecords k).existsFlag = false
        ∧ k ≠ "" ∧ m ≠ ""
        ∧ s' = afterRecord sender ts k m h s) := by
  constructor
  · intro hok
    unfold recordDeletion at hok
    by_cases h1 : (sender == s.owner || getAuth s.authorizedOperators sender) = true
    · rw [if_neg (not_not_intro h1)] at hok
      by_cases h2 : (getRecord s.deletionRecords k).existsFlag = true
      · rw [if_pos h2] at hok; exact Except.noConfusion hok
      · rw [if_neg h2] at hok
        by_cases h3 : k = ""
        · rw [if_pos h3] at hok; exact Except.noConfusion hok
        · rw [if_neg h3] at hok
          by_cases h4 : m = ""
          · rw [if_pos h4] at hok; exact Except.noConfusion hok
          · rw [if_neg h4] at hok
            exact ⟨h1, by simpa using h2, h3, h4, (Except.ok.inj hok).symm⟩
    · rw [if_pos h1] at hok; exact Except.noConfusion hok
  · rintro ⟨ha, hf, hk, hm, rfl⟩
    have hb : (sender == s.owner || getAuth s.authorizedOperators sender) = true := ha
    unfold recordDeletion
    rw [if_neg (not_not_intro hb), if_neg (by simp [hf]), if_neg hk, if_neg hm]
    rfl

theorem recordDeletion_error_of_exists (sender ts : Nat) (k m : String) (h : Nat)
    (s : ContractState) (hauth : isAuthorized s sender = true)
    (hex : (getRecord s.deletionRecords k).existsFlag = true) :
    recordDeletion sender ts k m h s = .error "Key deletion record already exists" := by
  unfold recordDeletion
  simp only [isAuthorized] at hauth
  simp [hauth, hex]

end DeletionProof

namespace DeletionProof

theorem afterRecord_getRecord (sender ts : Nat) (k m : String) (h : Nat)
    (s : ContractState) (k' : String) :
    getRecord (afterRecord sender ts k m h s).deletionRecords k' =
      if k = k' then
        { keyId := k, destructionMethod := m, timestamp := ts,
          operator := sender, proofHash := h, existsFlag := true }
      else getRecord s.deletionRecords k' :=
  getRecord_cons k k' _ s.deletionRecords

/-- C1: for an authorized caller and a non-empty, not-yet-recorded
`(keyId, method, proofHash)`, `recordDeletion` succeeds, `isKeyDeleted`
then returns `true`, and `getDeletionRecord` returns exactly the stored
tuple: the same key, the same method, the recording timestamp, the caller
as operator, and the same proof hash. -/
theorem c1_recordDeletion_correct (sender ts : Nat) (k m : String) (h : Nat)
    (s : ContractState)
    (hauth : isAuthorized s sender = true) (hk : k ≠ "") (hm : m ≠ "")
    (hfresh : isKeyDeleted s k = false) :
    ∃ s', recordDeletion sender ts k m h s = .ok s'
      ∧ isKeyDeleted s' k = true
      ∧ getDeletionRecord s' k = .ok (k, m, ts, sender, h) := by
  refine ⟨afterRecord sender ts k m h s, ?_, ?_, ?_⟩
  · exact (recordDeletion_ok_iff sender ts k m h s _).mpr ⟨hauth, hfresh, hk, hm, rfl⟩
  · simp [isKeyDeleted, afterRecord_getRecord]
  · simp [getDeletionRecord, afterRecord_getRecord]

/-- Witness for C1 at a concrete input. -/
theorem c1_recordDeletion_correct_witness :
    ∃ s', recordDeletion 1 5 "k1" "dod" 7 (initialState 1) = .ok s'
      ∧ isKeyDeleted s' "k1" = true
      ∧ getDeletionRecord s' "k1" = .ok ("k1", "dod", 5, 1, 7) :=
  c1_recordDeletion_correct 1 5 "k1" "dod" 7 (initialState 1)
    (by decide) (by decide) (by decide) (by decide)

/-- C8: `verifyDeletionProof` fails with `"Key deletion record does not
exist"` when no record exists; otherwise it is a pure comparison — `.ok
true` exactly when the stored `proofHash` equals `expectedHash`, `.ok
false` exactly when it differs.  (It is a `view` function: it takes no
state and returns none, so it cannot change state.) -/
theorem c8_verifyDeletionProof_spec (s : ContractState) (k : String) (h : Nat) :
    (isKeyDeleted s k = false →
      verifyDeletionProof s k h = .error "Key deletion record does not exist")
    ∧ (isKeyDeleted s k = true →
        (verifyDeletionProof s k h = .ok true ↔
            (getRecord s.deletionRecords k).proofHash = h)
        ∧ (verifyDeletionProof s k h = .ok false ↔
            (getRecord s.deletionRecords k).proofHash ≠ h)) := by
  unfold verifyDeletionProof isKeyDeleted
  constructor
  · intro hf
    rw [if_pos (by simp [hf])]
  · intro htru
    rw [if_neg (by simp [htru])]
    constructor
    · simp
    · simp

/-- Witness for C8: a recorded key verifies against its stored hash,
fails against a different hash, and an unknown key raises the not-found
error. -/
theorem c8_verifyDeletionProof_spec_witness :
    verifyDeletionProof (applyOp (.record 1 5 "k1" "dod" 7) (initialState 1)) "k1" 7 = .ok true
    ∧ verifyDeletionProof (applyOp (.record 1 5 "k1" "dod" 7) (initialState 1)) "k1" 8 = .ok false
    ∧ verifyDeletionProof (initialState 1) "k1" 7 = .error "Key deletion record does not exist" := by
  refine ⟨?_, ?_, ?_⟩
  · exact ((c8_verifyDeletionProof_spec _ "k1" 7).2 (by decide)).1.mpr (by decide)
  · exact ((c8_verifyDeletionProof_spec _ "k1" 8).2 (by decide)).2.mpr (by decide)
  · exact (c8_verifyDeletionProof_spec _ "k1" 7).1 (by decide)

/-- C9: in every state (hence in every reachable one) the owner passes
`isAuthorized`, and `revokeOperator(owner)` — called by the owner, the
only caller that passes the `onlyOwner` gate — fails with
`"Cannot revoke owner"` and leaves the state unchanged. -/
theorem c9_owner_never_deauthorized (s : ContractState) :
    isAuthorized s s.owner = true
    ∧ revokeOperator s.owner s.owner s = .error "Cannot revoke owner"
    ∧ applyOp (.revoke s.owner s.owner) s = s := by
  have hrev : revokeOperator s.owner s.owner s = .error "Cannot revoke owner" := by
    unfold revokeOperator
    rw [if_neg (by simp), if_pos rfl]
  refine ⟨by simp [isAuthorized], hrev, ?_⟩
  simp [applyOp, hrev, commit]

end DeletionProof

namespace DeletionProof

/-! ### The ledger invariant and its preservation -/

/-- The consistency invariant of the ledger storage: the counter equals
the length of `keyIds`, `keyIds` has no duplicates and enumerates exactly
the mapping's existing records, existing records never have an empty key,
and the `authorizedOperators` entry of the current owner is `true`. -/
def Inv (s : ContractState) : Prop :=
  s.totalDeletions = s.keyIds.length
  ∧ s.keyIds.Nodup
  ∧ (∀ k, k ∈ s.keyIds ↔ (getRecord s.deletionRecords k).existsFlag = true)
  ∧ (∀ k, (getRecord s.deletionRecords k).existsFlag = true → k ≠ "")
  ∧ getAuth s.authorizedOperators s.owner = true

theorem initialState_inv (deployer : Nat) : Inv (initialState deployer) := by
  refine ⟨rfl, List.nodup_nil, ?_, ?_, ?_⟩
  · intro k
    simp [initialState, getRecord, emptyRecord]
  · intro k hk
    simp [initialState, getRecord, emptyRecord] at hk
  · simp [initialState, getAuth]

theorem recordDeletion_preserves_inv (sender ts : Nat) (k m : String) (h : Nat)
    (s s' : ContractState) (hinv : Inv s)
    (hok : recordDeletion sender ts k m h s = .ok s') : Inv s' := by
  obtain ⟨-, hfresh, hk, -, rfl⟩ := (recordDeletion_ok_iff sender ts k m h s s').mp hok
  obtain ⟨hlen, hnodup, hmem, hne, hauth⟩ := hinv
  have hknotin : k ∉ s.keyIds := fun hin => by
    rw [hmem k] at hin
    rw [hin] at hfresh
    exact Bool.noConfusion hfresh
  refine ⟨?_, ?_, ?_, ?_, ?_⟩
  · simp [afterRecord, hlen]
  · simp [afterRecord, List.nodup_append, hnodup, hknotin]
  · intro k'
    rw [afterRecord_getRecord]
    have hky : (afterRecord sender ts k m h s).keyIds = s.keyIds ++ [k] := rfl
    rw [hky, List.mem_append, List.mem_singleton]
    rcases eq_or_ne k k' with rfl | hne'
    · simp
    · rw [if_neg hne']
      simp [hmem k', Ne.symm hne']
  · intro k'
    rw [afterRecord_getRecord]
    rcases eq_or_ne k k' with rfl | hne'
    · intro _; exact hk
    · rw [if_neg hne']; exact hne k'
  · exact hauth

theorem batchLoop_preserves_inv (sender ts : Nat)
    (entries : List (String × String × Nat)) :
    ∀ s s', Inv s → batchLoop sender ts entries s = .ok s' → Inv s' := by
  induction entries with
  | nil =>
    intro s s' hinv hok
    rw [batchLoop] at hok
    exact (Except.ok.inj hok) ▸ hinv
  | cons e rest ih =>
    intro s s' hinv hok
    obtain ⟨k, m, h⟩ := e
    rw [batchLoop] at hok
    split at hok
    · exact ih s s' hinv hok
    · split at hok
      · next s1 heq =>
        exact ih s1 s' (recordDeletion_preserves_inv sender ts k m h s s1 hinv heq) hok
      · exact Except.noConfusion hok

theorem applyOp_preserves_inv (o : Op) (s : ContractState) (hinv : Inv s) :
    Inv (applyOp o s) := by
  obtain ⟨hlen, hnodup, hmem, hne, hauth⟩ := hinv
  cases o with
  | record sender ts k m h =>
    simp only [applyOp]
    cases hr : recordDeletion sender ts k m h s with
    | ok s1 =>
      exact recordDeletion_preserves_inv sender ts k m h s s1
        ⟨hlen, hnodup, hmem, hne, hauth⟩ hr
    | error e => exact ⟨hlen, hnodup, hmem, hne, hauth⟩
  | batch sender ts ks ms hs =>
    simp only [applyOp]
    cases hr : batchRecordDeletion sender ts ks ms hs s with
    | ok s1 =>
      unfold batchRecordDeletion at hr
      split at hr
      · exact Except.noConfusion hr
      · split at hr
        · exact Except.noConfusion hr
        · split at hr
          · exact Except.noConfusion hr
          · split at hr
            · exact Except.noConfusion hr
            · exact batchLoop_preserves_inv sender ts _ s s1
                ⟨hlen, hnodup, hmem, hne, hauth⟩ hr
    | error e => exact ⟨hlen, hnodup, hmem, hne, hauth⟩
  | authorize sender op =>
    simp only [applyOp]
    cases hr : authorizeOperator sender op s with
    | error e => exact ⟨hlen, hnodup, hmem, hne, hauth⟩
    | ok s1 =>
      unfold authorizeOperator at hr
      split at hr
      · exact Except.noConfusion hr
      · split at hr
        · exact Except.noConfusion hr
        · have hr' := Except.ok.inj hr
          subst hr'
          refine ⟨hlen, hnodup, hmem, hne, ?_⟩
          show getAuth ((op, true) :: s.authorizedOperators) s.owner = true
          rw [getAuth_cons]
          split
          · rfl
          · exact hauth
  | revoke sender op =>
    simp only [applyOp]
    cases hr : revokeOperator sender op s with
    | error e => exact ⟨hlen, hnodup, hmem, hne, hauth⟩
    | ok s1 =>
      unfold revokeOperator at hr
      split at hr
      · exact Except.noConfusion hr
      · split at hr
        · exact Except.noConfusion hr
        · next hop =>
          have hr' := Except.ok.inj hr
          subst hr'
          refine ⟨hlen, hnodup, hmem, hne, ?_⟩
          show getAuth ((op, false) :: s.authorizedOperators) s.owner = true
          rw [getAuth_cons, if_neg hop]
          exact hauth
  | transfer sender newOwner =>
    simp only [applyOp]
    cases hr : transferOwnership sender newOwner s with
    | error e => exact ⟨hlen, hnodup, hmem, hne, hauth⟩
    | ok s1 =>
      unfold transferOwnership at hr
      split at hr
      · exact Except.noConfusion hr
      · split at hr
        · exact Except.noConfusion hr
        · have hr' := Except.ok.inj hr
          subst hr'
          refine ⟨hlen, hnodup, hmem, hne, ?_⟩
          show getAuth ((newOwner, true) :: s.authorizedOperators) newOwner = true
          rw [getAuth_cons, if_pos rfl]

theorem reachable_inv (s : ContractState) (hs : Reachable s) : Inv s := by
  induction hs with
  | init deployer => exact initialState_inv deployer
  | step o s hs ih => exact applyOp_preserves_inv o s ih

end DeletionProof

namespace DeletionProof

/-! ### Append-only behaviour of existing records -/

theorem recordDeletion_preserves_record (sender ts : Nat) (k m : String) (h : Nat)
    (s s' : ContractState) (hok : recordDeletion sender ts k m h s = .ok s')
    (k' : String) (hex : (getRecord s.deletionRecords k').existsFlag = true) :
    getRecord s'.deletionRecords k' = getRecord s.deletionRecords k' := by
  obtain ⟨-, hfresh, -, -, rfl⟩ := (recordDeletion_ok_iff sender ts k m h s s').mp hok
  rw [afterRecord_getRecord]
  rcases eq_or_ne k k' with rfl | hne'
  · rw [hex] at hfresh; exact Bool.noConfusion hfresh
  · rw [if_neg hne']

theorem batchLoop_preserves_record (sender ts : Nat)
    (entries : List (String × String × Nat)) :
    ∀ s s', batchLoop sender ts entries s = .ok s' →
      ∀ k', (getRecord s.deletionRecords k').existsFlag = true →
        getRecord s'.deletionRecords k' = getRecord s.deletionRecords k' := by
  induction entries with
  | nil =>
    intro s s' hok k' hex
    rw [batchLoop] at hok
    rw [← Except.ok.inj hok]
  | cons e rest ih =>
    intro s s' hok k' hex
    obtain ⟨k, m, h⟩ := e
    rw [batchLoop] at hok
    split at hok
    · exact ih s s' hok k' hex
    · split at hok
      · next s1 heq =>
        have hstep := recordDeletion_preserves_record sender ts k m h s s1 heq k' hex
        have hex1 : (getRecord s1.deletionRecords k').existsFlag = true := by
          rw [hstep]; exact hex
        rw [ih s1 s' hok k' hex1, hstep]
      · exact Except.noConfusion hok

/-- C2: the ledger is append-only — once a key has a record (`exists`
true), every further transaction (`recordDeletion`, `batchRecordDeletion`,
`authorizeOperator`, `revokeOperator`, `transferOwnership`; the queries
are pure and take no state) leaves that record, and in particular its
`exists` flag, bit-for-bit unchanged, so each `keyId` is recorded at most
once, ever. -/
theorem c2_append_only (o : Op) (s : ContractState) (k : String)
    (hex : (getRecord s.deletionRecords k).existsFlag = true) :
    getRecord (applyOp o s).deletionRecords k = getRecord s.deletionRecords k := by
  cases o with
  | record sender ts k0 m h =>
    simp only [applyOp]
    cases hr : recordDeletion sender ts k0 m h s with
    | ok s1 => exact recordDeletion_preserves_record sender ts k0 m h s s1 hr k hex
    | error e => rfl
  | batch sender ts ks ms hs =>
    simp only [applyOp]
    cases hr : batchRecordDeletion sender ts ks ms hs s with
    | error e => rfl
    | ok s1 =>
      unfold batchRecordDeletion at hr
      split at hr
      · exact Except.noConfusion hr
      · split at hr
        · exact Except.noConfusion hr
        · split at hr
          · exact Except.noConfusion hr
          · split at hr
            · exact Except.noConfusion hr
            · exact batchLoop_preserves_record sender ts _ s s1 hr k hex
  | authorize sender op =>
    simp only [applyOp]
    cases hr : authorizeOperator sender op s with
    | error e => rfl
    | ok s1 =>
      unfold authorizeOperator at hr
      split at hr
      · exact Except.noConfusion hr
      · split at hr
        · exact Except.noConfusion hr
        · have hr' := Except.ok.inj hr; subst hr'; rfl
  | revoke sender op =>
    simp only [applyOp]
    cases hr : revokeOperator sender op s with
    | error e => rfl
    | ok s1 =>
      unfold revokeOperator at hr
      split at hr
      · exact Except.noConfusion hr
      · split at hr
        · exact Except.noConfusion hr
        · have hr' := Except.ok.inj hr; subst hr'; rfl
  | transfer sender newOwner =>
    simp only [applyOp]
    cases hr : transferOwnership sender newOwner s with
    | error e => rfl
    | ok s1 =>
      unfold transferOwnership at hr
      split at hr
      · exact Except.noConfusion hr
      · split at hr
        · exact Except.noConfusion hr
        · have hr' := Except.ok.inj hr; subst hr'; rfl

/-- Witness for C2: a second `recordDeletion` on an already-recorded key
leaves the stored record unchanged. -/
theorem c2_append_only_witness :
    getRecord (applyOp (.record 1 6 "k1" "x" 9)
        (applyOp (.record 1 5 "k1" "dod" 7) (initialState 1))).deletionRecords "k1"
      = getRecord (applyOp (.record 1 5 "k1" "dod" 7)
          (initialState 1)).deletionRecords "k1" :=
  c2_append_only (.record 1 6 "k1" "x" 9) _ "k1" (by decide)

/-- C3: after a successful `recordDeletion` of `keyId`, a second
`recordDeletion` of the same `keyId` by any authorized caller fails with
`"Key deletion record already exists"`, the reverted call leaves the
state unchanged, and `totalDeletions` has grown by exactly one across the
two calls. -/
theorem c3_duplicate_record_conflict (sender1 sender2 ts1 ts2 : Nat)
    (k m1 m2 : String) (h1 h2 : Nat) (s s' : ContractState)
    (hok : recordDeletion sender1 ts1 k m1 h1 s = .ok s')
    (hauth2 : isAuthorized s' sender2 = true) :
    recordDeletion sender2 ts2 k m2 h2 s' = .error "Key deletion record already exists"
    ∧ applyOp (.record sender2 ts2 k m2 h2) s' = s'
    ∧ s'.totalDeletions = s.totalDeletions + 1 := by
  obtain ⟨-, -, -, -, rfl⟩ := (recordDeletion_ok_iff sender1 ts1 k m1 h1 s s').mp hok
  have hex : (getRecord (afterRecord sender1 ts1 k m1 h1 s).deletionRecords k).existsFlag
      = true := by
    rw [afterRecord_getRecord, if_pos rfl]
  have herr := recordDeletion_error_of_exists sender2 ts2 k m2 h2 _ hauth2 hex
  refine ⟨herr, ?_, rfl⟩
  simp [applyOp, herr, commit]

/-- Witness for C3 at a concrete double call. -/
theorem c3_duplicate_record_conflict_witness :
    recordDeletion 1 6 "k1" "x" 9 (applyOp (.record 1 5 "k1" "dod" 7) (initialState 1))
      = .error "Key deletion record already exists"
    ∧ applyOp (.record 1 6 "k1" "x" 9)
        (applyOp (.record 1 5 "k1" "dod" 7) (initialState 1))
      = applyOp (.record 1 5 "k1" "dod" 7) (initialState 1)
    ∧ (applyOp (.record 1 5 "k1" "dod" 7) (initialState 1)).totalDeletions
      = (initialState 1).totalDeletions + 1 :=
  c3_duplicate_record_conflict 1 1 5 6 "k1" "dod" "x" 7 9 (initialState 1)
    (applyOp (.record 1 5 "k1" "dod" 7) (initialState 1)) (by rfl) (by decide)

/-- C4: in every reachable state the enumeration structures agree:
`totalDeletions` is the length of the `keyIds` list, the list has no
duplicates, and a key is listed iff its record exists in the mapping;
reachability being closed under every operation, every operation
preserves this. -/
theorem c4_enumeration_consistent (s : ContractState) (hs : Reachable s) :
    getTotalDeletions s = (getAllKeyIds s).length
    ∧ (getAllKeyIds s).Nodup
    ∧ (∀ k, k ∈ getAllKeyIds s ↔ isKeyDeleted s k = true) := by
  obtain ⟨hlen, hnodup, hmem, -, -⟩ := reachable_inv s hs
  exact ⟨hlen, hnodup, hmem⟩

/-- Witness for C4 in the reachable state after one recorded deletion. -/
theorem c4_enumeration_consistent_witness :
    getTotalDeletions (applyOp (.record 1 5 "k1" "dod" 7) (initialState 1))
      = (getAllKeyIds (applyOp (.record 1 5 "k1" "dod" 7) (initialState 1))).length
    ∧ (getAllKeyIds (applyOp (.record 1 5 "k1" "dod" 7) (initialState 1))).Nodup
    ∧ ("k1" ∈ getAllKeyIds (applyOp (.record 1 5 "k1" "dod" 7) (initialState 1)) ↔
        isKeyDeleted (applyOp (.record 1 5 "k1" "dod" 7) (initialState 1)) "k1" = true) := by
  have h := c4_enumeration_consistent
    (applyOp (.record 1 5 "k1" "dod" 7) (initialState 1))
    (Reachable.step (.record 1 5 "k1" "dod" 7) (initialState 1) (Reachable.init 1))
  exact ⟨h.1, h.2.1, h.2.2 "k1"⟩

/-- C10: when the owner transfers ownership, the former owner's
`authorizedOperators` entry (set at construction or at the transfer that
made it owner) is not cleared, so it still passes `isAuthorized` — the
`onlyAuthorized` condition — and can still record fresh valid deletions
until explicitly revoked. -/
theorem c10_former_owner_remains_authorized (s : ContractState) (hs : Reachable s)
    (newOwner : Nat) (s' : ContractState)
    (hok : transferOwnership s.owner newOwner s = .ok s') :
    getAuth s'.authorizedOperators s.owner = true
    ∧ isAuthorized s' s.owner = true
    ∧ (∀ ts (k m : String) (h : Nat), k ≠ "" → m ≠ "" → isKeyDeleted s' k = false →
        ∃ s'', recordDeletion s.owner ts k m h s' = .ok s'') := by
  obtain ⟨-, -, -, -, hauth⟩ := reachable_inv s hs
  unfold transferOwnership at hok
  rw [if_neg (not_not_intro (by simp))] at hok
  split at hok
  · exact Except.noConfusion hok
  · have hr' := Except.ok.inj hok
    subst hr'
    have hga : getAuth ((newOwner, true) :: s.authorizedOperators) s.owner = true := by
      rw [getAuth_cons]
      split
      · rfl
      · exact hauth
    have hisa : isAuthorized
        { s with owner := newOwner,
                 authorizedOperators := (newOwner, true) :: s.authorizedOperators }
        s.owner = true := by
      unfold isAuthorized
      show (s.owner == newOwner || getAuth ((newOwner, true) :: s.authorizedOperators) s.owner)
        = true
      rw [hga, Bool.or_true]
    exact ⟨hga, hisa, fun ts k m h hk hm hfresh =>
      ⟨_, (recordDeletion_ok_iff s.owner ts k m h _ _).mpr ⟨hisa, hfresh, hk, hm, rfl⟩⟩⟩

/-- Witness for C10: after `transferOwnership(2)` from deployer `1`, the
former owner `1` is still authorized and records a fresh deletion. -/
theorem c10_former_owner_remains_authorized_witness :
    getAuth (applyOp (.transfer 1 2) (initialState 1)).authorizedOperators 1 = true
    ∧ isAuthorized (applyOp (.transfer 1 2) (initialState 1)) 1 = true
    ∧ ∃ s'', recordDeletion 1 5 "k1" "dod" 7
        (applyOp (.transfer 1 2) (initialState 1)) = .ok s'' := by
  have h := c10_former_owner_remains_authorized (initialState 1) (Reachable.init 1) 2
    (applyOp (.transfer 1 2) (initialState 1)) (by rfl)
  exact ⟨h.1, h.2.1, h.2.2 5 "k1" "dod" 7 (by decide) (by decide) (by decide)⟩

end DeletionProof

namespace DeletionProof

/-! ### Counting distinct fresh keys recorded by the batch loop -/

theorem dedup_length_cons_filter (k : String) (L : List String) :
    (k :: L).dedup.length = ((L.filter (fun x => x ≠ k)).dedup.length) + 1 := by
  rw [← List.card_toFinset, ← List.card_toFinset, List.toFinset_cons, List.toFinset_filter]
  have hpred : (L.toFinset.filter fun a => (decide (a ≠ k) : Bool) = true)
      = L.toFinset.erase k := by
    ext a
    simp [and_comm]
  rw [hpred]
  by_cases hk : k ∈ L.toFinset
  · rw [Finset.insert_eq_self.mpr hk]
    exact (Finset.card_erase_add_one hk).symm
  · rw [Finset.erase_eq_of_not_mem hk, Finset.card_insert_of_not_mem hk]

theorem dedup_count_step (k0 : String) (keys : List String) (freshp : String → Bool)
    (hk0 : freshp k0 = true) :
    ((k0 :: keys).filter freshp).dedup.length
      = ((keys.filter (fun x => freshp x && x ≠ k0)).dedup.length) + 1 := by
  rw [List.filter_cons, if_pos (by simp [hk0])]
  rw [dedup_length_cons_filter k0 (keys.filter freshp)]
  rw [List.filter_filter]
  have : (fun a => freshp a && decide (a ≠ k0)) = fun a => decide (a ≠ k0) && freshp a := by
    funext a; exact Bool.and_comm _ _
  rw [this]

/-- Full characterization of the batch loop on a structurally valid batch:
it succeeds, already-recorded keys are skipped with their records intact,
every batch key has a record afterwards, and the counter grows by the
number of distinct keys of the batch that were fresh before the call. -/
theorem batchLoop_spec (sender ts : Nat) (entries : List (String × String × Nat)) :
    ∀ s, isAuthorized s sender = true →
      (∀ e ∈ entries, e.1 ≠ "" ∧ e.2.1 ≠ "") →
      ∃ s', batchLoop sender ts entries s = .ok s'
        ∧ s'.totalDeletions = s.totalDeletions +
            ((entries.map Prod.fst).filter
              (fun k => !(getRecord s.deletionRecords k).existsFlag)).dedup.length
        ∧ (∀ k, (getRecord s'.deletionRecords k).existsFlag = true ↔
            ((getRecord s.deletionRecords k).existsFlag = true
              ∨ k ∈ entries.map Prod.fst))
        ∧ (∀ k, (getRecord s.deletionRecords k).existsFlag = true →
            getRecord s'.deletionRecords k = getRecord s.deletionRecords k) := by
  induction entries with
  | nil =>
    intro s hauth hval
    exact ⟨s, rfl, by simp, fun k => by simp, fun k _ => rfl⟩
  | cons e rest ih =>
    intro s hauth hval
    obtain ⟨k0, m0, h0⟩ := e
    have hval0 := hval (k0, m0, h0) (List.mem_cons_self _ _)
    have hvalr : ∀ e ∈ rest, e.1 ≠ "" ∧ e.2.1 ≠ "" :=
      fun e he => hval e (List.mem_cons_of_mem _ he)
    by_cases hex : (getRecord s.deletionRecords k0).existsFlag = true
    · obtain ⟨s', hok, htot, hchar, hpres⟩ := ih s hauth hvalr
      refine ⟨s', ?_, ?_, ?_, hpres⟩
      · rw [batchLoop, if_pos hex]; exact hok
      · rw [htot, List.map_cons, List.filter_cons, if_neg (by simp [hex])]
      · intro k
        rw [List.map_cons, List.mem_cons, hchar k]
        constructor
        · rintro (h | h)
          · exact Or.inl h
          · exact Or.inr (Or.inr h)
        · rintro (h | rfl | h)
          · exact Or.inl h
          · exact Or.inl hex
          · exact Or.inr h
    · have hfresh : (getRecord s.deletionRecords k0).existsFlag = false := by
        simpa using hex
      have hok0 : recordDeletion sender ts k0 m0 h0 s
          = .ok (afterRecord sender ts k0 m0 h0 s) :=
        (recordDeletion_ok_iff sender ts k0 m0 h0 s _).mpr
          ⟨hauth, hfresh, hval0.1, hval0.2, rfl⟩
      have hauth1 : isAuthorized (afterRecord sender ts k0 m0 h0 s) sender = true := hauth
      obtain ⟨s', hok, htot, hchar, hpres⟩ :=
        ih (afterRecord sender ts k0 m0 h0 s) hauth1 hvalr
      have hs1get : ∀ k', getRecord (afterRecord sender ts k0 m0 h0 s).deletionRecords k'
          = if k0 = k' then
              { keyId := k0, destructionMethod := m0, timestamp := ts,
                operator := sender, proofHash := h0, existsFlag := true }
            else getRecord s.deletionRecords k' :=
        afterRecord_getRecord sender ts k0 m0 h0 s
      refine ⟨s', ?_, ?_, ?_, ?_⟩
      · rw [batchLoop, if_neg hex, hok0]
        exact hok
      · rw [htot]
        have h1 : (afterRecord sender ts k0 m0 h0 s).totalDeletions
            = s.totalDeletions + 1 := rfl
        rw [h1]
        have hfun : (fun x => !(getRecord
              (afterRecord sender ts k0 m0 h0 s).deletionRecords x).existsFlag)
            = fun x => (!(getRecord s.deletionRecords x).existsFlag) && (x ≠ k0) := by
          funext x
          rw [hs1get x]
          rcases eq_or_ne k0 x with rfl | hne
          · simp
          · rw [if_neg hne]
            simp [Ne.symm hne]
        rw [hfun, List.map_cons]
        rw [dedup_count_step k0 (rest.map Prod.fst)
          (fun x => !(getRecord s.deletionRecords x).existsFlag) (by simp [hfresh])]
        omega
      · intro k
        rw [List.map_cons, List.mem_cons, hchar k, hs1get k]
        rcases eq_or_ne k0 k with rfl | hne
        · simp
        · rw [if_neg hne]
          constructor
          · rintro (h | h)
            · exact Or.inl h
            · exact Or.inr (Or.inr h)
          · rintro (h | rfl | h)
            · exact Or.inl h
            · exact absurd rfl hne
            · exact Or.inr h
      · intro k hk
        have hkne : k0 ≠ k := by
          intro heq
          rw [heq] at hfresh
          rw [hk] at hfresh
          exact Bool.noConfusion hfresh
        have hs1p : getRecord (afterRecord sender ts k0 m0 h0 s).deletionRecords k
            = getRecord s.deletionRecords k := by
          rw [hs1get k, if_neg hkne]
        have hk1 : (getRecord (afterRecord sender ts k0 m0 h0 s).deletionRecords k).existsFlag
            = true := by rw [hs1p]; exact hk
        rw [hpres k hk1, hs1p]

end DeletionProof

namespace DeletionProof

/-- C7: for an authorized caller and a structurally valid batch (equal
lengths, 1..100 entries, all keys and methods non-empty),
`batchRecordDeletion` succeeds, silently skipping every entry whose key
already has a record — including keys repeated inside the batch after
their first occurrence — leaving stored records untouched, recording all
remaining entries, and increasing `totalDeletions` by exactly the number
of distinct batch keys that had no record before the call. -/
theorem c7_batch_skips_existing (sender ts : Nat) (ks ms : List String) (hs : List Nat)
    (s : ContractState)
    (hauth : isAuthorized s sender = true)
    (hlm : ks.length = ms.length) (hlh : ks.length = hs.length)
    (hlo : 1 ≤ ks.length) (hhi : ks.length ≤ 100)
    (hks : ∀ k ∈ ks, k ≠ "") (hms : ∀ m ∈ ms, m ≠ "") :
    ∃ s', batchRecordDeletion sender ts ks ms hs s = .ok s'
      ∧ s'.totalDeletions = s.totalDeletions +
          ((ks.filter (fun k => !(getRecord s.deletionRecords k).existsFlag)).dedup).length
      ∧ (∀ k ∈ ks, isKeyDeleted s' k = true)
      ∧ (∀ k, isKeyDeleted s k = true →
          getRecord s'.deletionRecords k = getRecord s.deletionRecords k) := by
  have hb : (sender == s.owner || getAuth s.authorizedOperators sender) = true := hauth
  have hmapfst : (ks.zip (ms.zip hs)).map Prod.fst = ks := by
    apply List.map_fst_zip
    rw [List.length_zip]
    exact Nat.le_min.mpr ⟨le_of_eq hlm, le_of_eq hlh⟩
  have hval : ∀ e ∈ ks.zip (ms.zip hs), e.1 ≠ "" ∧ e.2.1 ≠ "" := by
    intro e he
    obtain ⟨k, m, h⟩ := e
    have h1 := List.of_mem_zip he
    have h2 := List.of_mem_zip h1.2
    exact ⟨hks k h1.1, hms m h2.1⟩
  obtain ⟨s', hok, htot, hchar, hpres⟩ :=
    batchLoop_spec sender ts (ks.zip (ms.zip hs)) s hauth hval
  simp only [hmapfst] at htot hchar
  refine ⟨s', ?_, htot, ?_, hpres⟩
  · unfold batchRecordDeletion
    rw [if_neg (not_not_intro hb), if_neg (not_not_intro ⟨hlm, hlh⟩),
        if_neg (by omega), if_neg (by omega)]
    exact hok
  · intro k hk
    exact (hchar k).mpr (Or.inr hk)

/-- Witness for C7: with `"a"` already recorded, the batch
`["a", "b", "b"]` succeeds, skips `"a"` (its record intact) and the
repeated `"b"`, and adds exactly one to the counter. -/
theorem c7_batch_skips_existing_witness :
    batchRecordDeletion 1 6 ["a", "b", "b"] ["x", "y", "z"] [4, 5, 6]
        (applyOp (.record 1 5 "a" "m" 1) (initialState 1))
      = .ok (applyOp (.batch 1 6 ["a", "b", "b"] ["x", "y", "z"] [4, 5, 6])
          (applyOp (.record 1 5 "a" "m" 1) (initialState 1)))
    ∧ (applyOp (.batch 1 6 ["a", "b", "b"] ["x", "y", "z"] [4, 5, 6])
          (applyOp (.record 1 5 "a" "m" 1) (initialState 1))).totalDeletions
        = (applyOp (.record 1 5 "a" "m" 1) (initialState 1)).totalDeletions + 1
    ∧ isKeyDeleted (applyOp (.batch 1 6 ["a", "b", "b"] ["x", "y", "z"] [4, 5, 6])
          (applyOp (.record 1 5 "a" "m" 1) (initialState 1))) "b" = true
    ∧ getRecord (applyOp (.batch 1 6 ["a", "b", "b"] ["x", "y", "z"] [4, 5, 6])
          (applyOp (.record 1 5 "a" "m" 1) (initialState 1))).deletionRecords "a"
        = getRecord (applyOp (.record 1 5 "a" "m" 1)
            (initialState 1)).deletionRecords "a" := by
  obtain ⟨s', hok, htot, hall, hpres⟩ :=
    c7_batch_skips_existing 1 6 ["a", "b", "b"] ["x", "y", "z"] [4, 5, 6]
      (applyOp (.record 1 5 "a" "m" 1) (initialState 1))
      (by decide) (by decide) (by decide) (by decide) (by decide) (by decide) (by decide)
  have happ : applyOp (.batch 1 6 ["a", "b", "b"] ["x", "y", "z"] [4, 5, 6])
      (applyOp (.record 1 5 "a" "m" 1) (initialState 1)) = s' := by
    show commit (applyOp (.record 1 5 "a" "m" 1) (initialState 1))
      (batchRecordDeletion 1 6 ["a", "b", "b"] ["x", "y", "z"] [4, 5, 6]
        (applyOp (.record 1 5 "a" "m" 1) (initialState 1))) = s'
    rw [hok]
    rfl
  rw [happ]
  refine ⟨hok, ?_, hall "b" (by decide), hpres "a" (by decide)⟩
  rw [htot]
  rfl

/-- C5: for an authorized caller, `batchRecordDeletion` rejects — with no
record written, the state unchanged — mismatched array lengths
(`"Array lengths must match"`), an empty batch (`"Arrays cannot be
empty"`), and a batch of more than 100 entries (`"Batch size too
large"`); any batch of 1..100 fresh-or-skippable valid entries (in
particular one of exactly 100) succeeds, while one of 101 falls under the
size rejection. -/
theorem c5_batch_structural (sender ts : Nat) (ks ms : List String) (hs : List Nat)
    (s : ContractState) (hauth : isAuthorized s sender = true) :
    (¬(ks.length = ms.length ∧ ks.length = hs.length) →
        batchRecordDeletion sender ts ks ms hs s = .error "Array lengths must match"
        ∧ applyOp (.batch sender ts ks ms hs) s = s)
    ∧ (ks.length = ms.length → ks.length = hs.length → ks = [] →
        batchRecordDeletion sender ts ks ms hs s = .error "Arrays cannot be empty"
        ∧ applyOp (.batch sender ts ks ms hs) s = s)
    ∧ (ks.length = ms.length → ks.length = hs.length → 100 < ks.length →
        batchRecordDeletion sender ts ks ms hs s = .error "Batch size too large"
        ∧ applyOp (.batch sender ts ks ms hs) s = s)
    ∧ (ks.length = ms.length → ks.length = hs.length →
        1 ≤ ks.length → ks.length ≤ 100 →
        (∀ k ∈ ks, k ≠ "") → (∀ m ∈ ms, m ≠ "") →
        ∃ s', batchRecordDeletion sender ts ks ms hs s = .ok s') := by
  have hb : (sender == s.owner || getAuth s.authorizedOperators sender) = true := hauth
  refine ⟨?_, ?_, ?_, ?_⟩
  · intro hne
    have herr : batchRecordDeletion sender ts ks ms hs s
        = .error "Array lengths must match" := by
      unfold batchRecordDeletion
      rw [if_neg (not_not_intro hb), if_pos hne]
    exact ⟨herr, by simp [applyOp, herr, commit]⟩
  · intro hlm hlh hnil
    have herr : batchRecordDeletion sender ts ks ms hs s
        = .error "Arrays cannot be empty" := by
      unfold batchRecordDeletion
      rw [if_neg (not_not_intro hb), if_neg (not_not_intro ⟨hlm, hlh⟩),
          if_pos (by simp [hnil])]
    exact ⟨herr, by simp [applyOp, herr, commit]⟩
  · intro hlm hlh hbig
    have herr : batchRecordDeletion sender ts ks ms hs s
        = .error "Batch size too large" := by
      unfold batchRecordDeletion
      rw [if_neg (not_not_intro hb), if_neg (not_not_intro ⟨hlm, hlh⟩),
          if_neg (by omega), if_pos hbig]
    exact ⟨herr, by simp [applyOp, herr, commit]⟩
  · intro hlm hlh hlo hhi hks hms
    have hval : ∀ e ∈ ks.zip (ms.zip hs), e.1 ≠ "" ∧ e.2.1 ≠ "" := by
      intro e he
      obtain ⟨k, m, h⟩ := e
      have h1 := List.of_mem_zip he
      have h2 := List.of_mem_zip h1.2
      exact ⟨hks k h1.1, hms m h2.1⟩
    obtain ⟨s', hok, -, -, -⟩ :=
      batchLoop_spec sender ts (ks.zip (ms.zip hs)) s hauth hval
    refine ⟨s', ?_⟩
    unfold batchRecordDeletion
    rw [if_neg (not_not_intro hb), if_neg (not_not_intro ⟨hlm, hlh⟩),
        if_neg (by omega), if_neg (by omega)]
    exact hok

/-- Witness for C5: a mismatched batch fails, a batch of exactly 100
fresh valid entries succeeds, and a batch of 101 fails with the size
error. -/
theorem c5_batch_structural_witness :
    batchRecordDeletion 1 5 ["a", "b"] ["m"] [7] (initialState 1)
      = .error "Array lengths must match"
    ∧ (∃ s', batchRecordDeletion 1 5 ((List.range 100).map (fun i => "k" ++ toString i))
        (List.replicate 100 "m") (List.replicate 100 7) (initialState 1) = .ok s')
    ∧ batchRecordDeletion 1 5 ((List.range 101).map (fun i => "k" ++ toString i))
        (List.replicate 101 "m") (List.replicate 101 7) (initialState 1)
      = .error "Batch size too large" := by
  refine ⟨?_, ?_, ?_⟩
  · exact ((c5_batch_structural 1 5 ["a", "b"] ["m"] [7] (initialState 1)
      (by decide)).1 (by decide)).1
  · exact (c5_batch_structural 1 5 ((List.range 100).map (fun i => "k" ++ toString i))
      (List.replicate 100 "m") (List.replicate 100 7) (initialState 1)
      (by decide)).2.2.2 (by simp) (by simp) (by simp) (by simp)
      (by decide) (by decide)
  · exact ((c5_batch_structural 1 5 ((List.range 101).map (fun i => "k" ++ toString i))
      (List.replicate 101 "m") (List.replicate 101 7) (initialState 1)
      (by decide)).2.2.1 (by simp) (by simp) (by simp)).1

end DeletionProof

namespace DeletionProof

/-- C6 counterexample: in the fresh ledger, the batch `["a", "a"]` with
methods `["m", ""]` contains an entry (`"a"`, `""`) whose key has no
record before the call and whose method is empty; the claim then demands
the whole call fail with nothing committed, but the call succeeds — the
first entry records `"a"`, so the loop silently skips the invalid second
entry — and a record is committed (`totalDeletions` becomes 1). -/
theorem c6_counterexample_batch_partial_validity :
    isKeyDeleted (initialState 1) "a" = false
    ∧ batchRecordDeletion 1 5 ["a", "a"] ["m", ""] [1, 2] (initialState 1)
        = .ok (applyOp (.batch 1 5 ["a", "a"] ["m", ""] [1, 2]) (initialState 1))
    ∧ isKeyDeleted (applyOp (.batch 1 5 ["a", "a"] ["m", ""] [1, 2])
        (initialState 1)) "a" = true
    ∧ (applyOp (.batch 1 5 ["a", "a"] ["m", ""] [1, 2])
        (initialState 1)).totalDeletions = 1 :=
  ⟨by decide, by rfl, by decide, by decide⟩

theorem batchLoop_error_of_bad (sender ts : Nat) (k m : String) (h : Nat)
    (suf : List (String × String × Nat)) :
    ∀ (pre : List (String × String × Nat)) (s : ContractState),
      (getRecord s.deletionRecords k).existsFlag = false →
      k ∉ pre.map Prod.fst →
      (k = "" ∨ m = "") →
      ∃ e, batchLoop sender ts (pre ++ (k, m, h) :: suf) s = .error e := by
  intro pre
  induction pre with
  | nil =>
    intro s hfresh hnin hbad
    rw [List.nil_append, batchLoop, if_neg (by simp [hfresh])]
    cases hr : recordDeletion sender ts k m h s with
    | ok s1 =>
      obtain ⟨-, -, hk, hm, -⟩ := (recordDeletion_ok_iff sender ts k m h s s1).mp hr
      rcases hbad with hb | hb
      · exact absurd hb hk
      · exact absurd hb hm
    | error e => exact ⟨e, rfl⟩
  | cons p pre' ih =>
    intro s hfresh hnin hbad
    obtain ⟨k0, m0, h0⟩ := p
    rw [List.cons_append, batchLoop]
    simp only [List.map_cons, List.mem_cons] at hnin
    push_neg at hnin
    obtain ⟨hkne, hnin'⟩ := hnin
    by_cases hex : (getRecord s.deletionRecords k0).existsFlag = true
    · rw [if_pos hex]
      exact ih s hfresh hnin' hbad
    · rw [if_neg hex]
      cases hr : recordDeletion sender ts k0 m0 h0 s with
      | error e => exact ⟨e, rfl⟩
      | ok s1 =>
        obtain ⟨-, -, -, -, rfl⟩ := (recordDeletion_ok_iff sender ts k0 m0 h0 s s1).mp hr
        have hfresh1 : (getRecord (afterRecord sender ts k0 m0 h0 s).deletionRecords
            k).existsFlag = false := by
          rw [afterRecord_getRecord, if_neg (fun hh => hkne hh.symm)]
          exact hfresh
        exact ih (afterRecord sender ts k0 m0 h0 s) hfresh1 hnin' hbad

/-- C6 (amended): for an authorized caller and a structurally accepted
batch, if some entry has a keyId with no record before the call that also
does not occur earlier in the batch, and that entry's keyId or method is
empty, then the whole call reverts and no record from the batch is
committed — the ledger state is exactly as before the call.  (The
amendment adds "does not occur earlier in the batch": an invalid entry
whose key was just recorded by an earlier entry of the same batch is
silently skipped, see the counterexample.) -/
theorem c6_batch_validation_atomic (sender ts : Nat)
    (ks1 ks2 ms1 ms2 : List String) (hs1 hs2 : List Nat)
    (k m : String) (h : Nat) (s : ContractState)
    (hauth : isAuthorized s sender = true)
    (hl1 : ks1.length = ms1.length) (hl2 : ks1.length = hs1.length)
    (hlm : (ks1 ++ k :: ks2).length = (ms1 ++ m :: ms2).length)
    (hlh : (ks1 ++ k :: ks2).length = (hs1 ++ h :: hs2).length)
    (hhi : (ks1 ++ k :: ks2).length ≤ 100)
    (hfresh : isKeyDeleted s k = false)
    (hnotin : k ∉ ks1)
    (hbad : k = "" ∨ m = "") :
    (∃ e, batchRecordDeletion sender ts (ks1 ++ k :: ks2) (ms1 ++ m :: ms2)
        (hs1 ++ h :: hs2) s = .error e)
    ∧ applyOp (.batch sender ts (ks1 ++ k :: ks2) (ms1 ++ m :: ms2)
        (hs1 ++ h :: hs2)) s = s := by
  have hb : (sender == s.owner || getAuth s.authorizedOperators sender) = true := hauth
  have hml : ms1.length = hs1.length := by omega
  have hzin : (ms1 ++ m :: ms2).zip (hs1 ++ h :: hs2)
      = ms1.zip hs1 ++ (m, h) :: ms2.zip hs2 := by
    rw [List.zip_append hml, List.zip_cons_cons]
  have hlpre : ks1.length = (ms1.zip hs1).length := by
    rw [List.length_zip, ← hl1, ← hl2, Nat.min_self]
  have hzip : (ks1 ++ k :: ks2).zip ((ms1 ++ m :: ms2).zip (hs1 ++ h :: hs2))
      = ks1.zip (ms1.zip hs1) ++ (k, (m, h)) :: ks2.zip (ms2.zip hs2) := by
    rw [hzin, List.zip_append hlpre, List.zip_cons_cons]
  have hmapfst_pre : (ks1.zip (ms1.zip hs1)).map Prod.fst = ks1 :=
    List.map_fst_zip ks1 (ms1.zip hs1) (le_of_eq hlpre)
  obtain ⟨e, herr⟩ := batchLoop_error_of_bad sender ts k m h
    (ks2.zip (ms2.zip hs2)) (ks1.zip (ms1.zip hs1)) s hfresh
    (by rw [hmapfst_pre]; exact hnotin) hbad
  have herr' : batchRecordDeletion sender ts (ks1 ++ k :: ks2) (ms1 ++ m :: ms2)
      (hs1 ++ h :: hs2) s = .error e := by
    unfold batchRecordDeletion
    rw [if_neg (not_not_intro hb), if_neg (not_not_intro ⟨hlm, hlh⟩),
        if_neg (by simp), if_neg (by omega), hzip]
    exact herr
  refine ⟨⟨e, herr'⟩, ?_⟩
  show commit s (batchRecordDeletion sender ts (ks1 ++ k :: ks2) (ms1 ++ m :: ms2)
    (hs1 ++ h :: hs2) s) = s
  rw [herr']
  rfl

/-- Witness for the amended C6: a one-entry batch with an empty method
reverts and commits nothing. -/
theorem c6_batch_validation_atomic_witness :
    (∃ e, batchRecordDeletion 1 5 (([] : List String) ++ "b" :: [])
        (([] : List String) ++ "" :: []) (([] : List Nat) ++ 3 :: [])
        (initialState 1) = .error e)
    ∧ applyOp (.batch 1 5 (([] : List String) ++ "b" :: [])
        (([] : List String) ++ "" :: []) (([] : List Nat) ++ 3 :: []))
        (initialState 1) = initialState 1 :=
  c6_batch_validation_atomic 1 5 [] [] [] [] [] [] "b" "" 3 (initialState 1)
    (by decide) rfl rfl rfl rfl (by decide) (by decide) (by decide) (Or.inr rfl)

end DeletionProof
